import Mathlib

/-!
Verification of the Morpho/Pendle data-collection pipeline.

Shallow embedding of the JavaScript sources:
* `src/unnamed/part_000` — the main Morpho+Pendle collection script
  (pagination loops, retry loops, pLimit concurrency gate, vault loop,
  flatten/CSV export, Pendle address extraction);
* `src/get_morpho_data.js` — `MorphoDataBuilder` (error-isolating dataset
  builder).

Network effects are modelled by explicit oracles (functions from attempt or
offset to an outcome); JavaScript exceptions are modelled with `Except` /
`Option`; the unbounded `for (;;)` loops are modelled with explicit fuel,
and the theorems show that a sufficient concrete fuel always terminates the
loop with `some` result.
-/

namespace MorphoDash

/- ================================================================
   Pagination (part_000: fetchAllMorphoMarkets, lines 1117-1139 and
   fetchAllUserTransactionsForMarket, lines 1146-1170).

   The loop body is, in both fetchers:
     data  = gqlRequest(query, {first, skip, ...})
     items = page.items || []
     all.push(...items)
     if (total === null) total = page.pageInfo?.countTotal ?? items.length
     skip += items.length
     if (!items.length || skip >= total) break
   ================================================================ -/

/-- One page call: given the current offset (`skip`), the provider returns
the page's items and the reported `countTotal`. -/
def PageFn (α : Type) := Nat → List α × Nat

/-- The paginated fetch loop of `fetchAllMorphoMarkets` /
`fetchAllUserTransactionsForMarket`, with explicit fuel.  Returns the
accumulated items together with the number of page calls made, or `none`
if the fuel ran out before the loop hit one of its two exit conditions. -/
def pagedLoop (pf : PageFn α) : Nat → Nat → List α → Option Nat → Option (List α × Nat)
  | 0, _, _, _ => none
  | fuel + 1, skip, acc, total =>
    let page := pf skip
    let items := page.1
    let acc2 := acc ++ items
    let total2 := total.getD page.2
    let skip2 := skip + items.length
    if items.length = 0 ∨ total2 ≤ skip2 then some (acc2, 1)
    else
      match pagedLoop pf fuel skip2 acc2 (some total2) with
      | none => none
      | some (res, calls) => some (res, calls + 1)

/-- Entry point of the pagination loop: `skip = 0`, empty accumulator,
`total = null`. -/
def fetchAllPaged (pf : PageFn α) (fuel : Nat) : Option (List α × Nat) :=
  pagedLoop pf fuel 0 [] none

/-- A well-formed provider over an underlying item list `L` with page size
`P`: the page at offset `skip` holds the next (at most `P`) items and the
reported total is `L.length`. -/
def wfPage (L : List α) (P : Nat) : PageFn α :=
  fun skip => ((L.drop skip).take P, L.length)

theorem pagedLoop_empty_page (pf : PageFn α) (fuel skip : Nat) (acc : List α)
    (total : Option Nat) (h : (pf skip).1 = []) :
    pagedLoop pf (fuel + 1) skip acc total = some (acc, 1) := by
  simp [pagedLoop, h]

theorem pagedLoop_wf (L : List α) (P : Nat) (hP : 1 ≤ P) :
    ∀ n fuel skip acc, n ≤ fuel → skip + n = L.length → 1 ≤ n →
      pagedLoop (wfPage L P) fuel skip acc (some L.length) =
        some (acc ++ L.drop skip, (n + P - 1) / P) := by
  intro n
  induction n using Nat.strong_induction_on with
  | _ n ih =>
    intro fuel skip acc hfuel hskip hn
    obtain ⟨fuel, rfl⟩ : ∃ f, fuel = f + 1 :=
      ⟨fuel - 1, by omega⟩
    have hlen : ((L.drop skip).take P).length = min P n := by
      simp [List.length_take, List.length_drop]
      omega
    simp only [pagedLoop, wfPage, Option.getD_some]
    rw [hlen]
    split
    · -- the loop breaks: the page carried the final min P n items
      rename_i hcond
      have hnP : n ≤ P := by omega
      have htake : (L.drop skip).take P = L.drop skip := by
        apply List.take_of_length_le
        simp [List.length_drop]
        omega
      have hdiv : (n + P - 1) / P = 1 :=
        Nat.div_eq_of_lt_le (by omega) (by omega)
      rw [htake, hdiv]
    · -- a full page of P items, then the loop continues
      rename_i hcond
      push_neg at hcond
      have hPn : P < n := by omega
      have hmin : min P n = P := by omega
      rw [hmin]
      have hrec := ih (n - P) (by omega) fuel (skip + P) (acc ++ (L.drop skip).take P)
        (by omega) (by omega) (by omega)
      rw [hrec]
      show some (acc ++ (L.drop skip).take P ++ L.drop (skip + P), (n - P + P - 1) / P + 1) =
        some (acc ++ L.drop skip, (n + P - 1) / P)
      have hsplit : acc ++ (L.drop skip).take P ++ L.drop (skip + P) = acc ++ L.drop skip := by
        rw [List.append_assoc]
        congr 1
        have hd : L.drop (skip + P) = (L.drop skip).drop P := by
          rw [List.drop_drop]
        rw [hd, List.take_append_drop]
      have hcalls : (n - P + P - 1) / P + 1 = (n + P - 1) / P := by
        have h1 : n + P - 1 = (n - P + P - 1) + P := by omega
        rw [h1, Nat.add_div_right _ (by omega)]
      rw [hsplit, hcalls]

theorem pagedLoop_none_step (pf : PageFn α) (fuel skip : Nat) (acc : List α) :
    pagedLoop pf (fuel + 1) skip acc none =
      pagedLoop pf (fuel + 1) skip acc (some (pf skip).2) := by
  simp only [pagedLoop, Option.getD_none, Option.getD_some]

theorem fetchAllPaged_wf (L : List α) (P : Nat) (hP : 1 ≤ P) :
    fetchAllPaged (wfPage L P) (L.length + 1) =
      some (L, max 1 ((L.length + P - 1) / P)) := by
  rw [fetchAllPaged, pagedLoop_none_step]
  by_cases hL : L.length = 0
  · have hnil : L = [] := List.eq_nil_of_length_eq_zero hL
    subst hnil
    have hdiv : (P - 1) / P = 0 := Nat.div_eq_of_lt (by omega)
    simp [pagedLoop, wfPage, hdiv]
  · have h1 : 1 ≤ L.length := by omega
    have hmain := pagedLoop_wf L P hP L.length (L.length + 1) 0 []
      (by omega) (by omega) h1
    show pagedLoop (wfPage L P) (L.length + 1) 0 [] (some L.length) = _
    rw [hmain]
    have hge : 1 ≤ (L.length + P - 1) / P := by
      have := Nat.div_pos (show P ≤ L.length + P - 1 by omega) (show 0 < P by omega)
      omega
    rw [Nat.max_eq_right hge]
    simp

/-- C1, counterexample to the claim as stated: for the well-formed page
sequence with reported total `T = 0` and page size `P = 100`, the loop
still performs one page call, which is not within `ceil(T/P) = 0` calls. -/
theorem claim_C1_counterexample :
    fetchAllPaged (wfPage ([] : List Nat) 100) 1 = some ([], 1) ∧
      (([] : List Nat).length + 100 - 1) / 100 < 1 := by
  constructor
  · rfl
  · decide

/-- C1 (amended): for every well-formed page sequence with reported total
`T = L.length` and page size `P ≥ 1`, the paginated fetch loop (as in
`fetchAllUserTransactionsForMarket` and `fetchAllMorphoMarkets`, embedded
as `pagedLoop`/`fetchAllPaged`) returns exactly the `T` items in arrival
order within `max 1 (ceil (T / P))` page calls (the loop always makes at
least one call, even when `T = 0`); and it stops if a page ever returns
zero items, even when the accumulated count has not reached the reported
total. -/
theorem claim_C1_pagination (L : List α) (P : Nat) (hP : 1 ≤ P) :
    fetchAllPaged (wfPage L P) (L.length + 1) =
      some (L, max 1 ((L.length + P - 1) / P)) ∧
    ∀ (pf : PageFn α) (fuel skip : Nat) (acc : List α) (total : Option Nat),
      (pf skip).1 = [] →
      pagedLoop pf (fuel + 1) skip acc total = some (acc, 1) := by
  refine ⟨fetchAllPaged_wf L P hP, ?_⟩
  intro pf fuel skip acc total h
  have := pagedLoop_empty_page pf fuel skip acc total h
  simpa using this

/-- Witness for C1: concrete instance at `L = [10, 20, 30]`, `P = 2`:
three items are returned in two page calls. -/
theorem claim_C1_pagination_witness :
    1 ≤ 2 ∧
      fetchAllPaged (wfPage [10, 20, 30] 2) 4 =
        some ([10, 20, 30], max 1 ((([10, 20, 30] : List Nat).length + 2 - 1) / 2)) :=
  ⟨by decide, (claim_C1_pagination [10, 20, 30] 2 (by decide)).1⟩

/- ================================================================
   Retry loops (part_000: fetchJsonWithRetry, lines 860-882, and
   gqlRequest, lines 884-936).

   fetchJsonWithRetry: on a non-2xx HTTP status, retries while
   `tryNum < CONFIG.maxRetries && [429,500,502,503,504].includes(status)`
   with delay `min(1000 * 2^tryNum, 30000) + jitter`, else throws.

   gqlRequest: same status classification with delay
   `min(1500 * 2^tryNum, 45000) + jitter`; on a 2xx response carrying a
   GraphQL `errors` array it retries unconditionally while `tryNum < 3`
   (delay `200 * tryNum`), and past that retries only when the stringified
   errors contain "Internal server error" and `tryNum < maxRetries`
   (delay `2000 * 2^tryNum + jitter`), else throws.

   The network is an oracle from the attempt number (`tryNum`, starting
   at 1) to the outcome of that attempt.  The result pairs the
   thrown/returned value with the number of times the underlying executor
   (`fetch`) was invoked.
   ================================================================ -/

/-- Outcome of one `fetch` call in `fetchJsonWithRetry`. -/
inductive FetchOutcome where
  | ok (payload : String)
  | httpErr (status : Nat)
deriving DecidableEq, Repr

/-- Outcome of one `fetch` call in `gqlRequest`: a non-2xx status, or a
2xx JSON body either carrying a GraphQL `errors` array (kept here as its
stringified message) or clean data. -/
inductive GqlOutcome where
  | ok (payload : String)
  | appErr (message : String)
  | httpErr (status : Nat)
deriving DecidableEq, Repr

/-- `[429, 500, 502, 503, 504].includes(status)`. -/
def httpRetryable (status : Nat) : Bool :=
  ([429, 500, 502, 503, 504] : List Nat).contains status

/-- `Math.min(1000 * Math.pow(2, tryNum), 30000)` (fetchJsonWithRetry). -/
def fetchRetryBaseDelay (tryNum : Nat) : Nat := min (1000 * 2 ^ tryNum) 30000

/-- `Math.min(1500 * Math.pow(2, tryNum), 45000)` (gqlRequest, HTTP path). -/
def gqlHttpBaseDelay (tryNum : Nat) : Nat := min (1500 * 2 ^ tryNum) 45000

/-- The delay used by gqlRequest on a GraphQL `errors` payload:
`200 * tryNum` on the unconditional early retries, `2000 * 2^tryNum` on
the transient-message retries. -/
def gqlErrorsDelay (tryNum : Nat) : Nat :=
  if tryNum < 3 then 200 * tryNum else 2000 * 2 ^ tryNum

def charsPrefixEq : List Char → List Char → Bool
  | [], _ => true
  | _ :: _, [] => false
  | a :: as, b :: bs => a = b && charsPrefixEq as bs

def charsContains (needle : List Char) : List Char → Bool
  | [] => needle.isEmpty
  | c :: rest => charsPrefixEq needle (c :: rest) || charsContains needle rest

/-- `hay.includes(needle)` on JS strings. -/
def strContainsSub (hay needle : String) : Bool :=
  charsContains needle.toList hay.toList

/-- `errorMessage.includes("Internal server error")`. -/
def transientGqlMessage (msg : String) : Bool :=
  strContainsSub msg "Internal server error"

/-- `fetchJsonWithRetry` (part_000 lines 860-882), with explicit fuel.
Returns the final result (`.ok payload` or the thrown `.error status`)
paired with the number of `fetch` invocations. -/
def fetchJsonWithRetry (mx : Nat) (oracle : Nat → FetchOutcome) :
    Nat → Nat → Option (Except Nat String × Nat)
  | 0, _ => none
  | fuel + 1, tryNum =>
    match oracle tryNum with
    | .ok p => some (.ok p, 1)
    | .httpErr s =>
      if tryNum < mx ∧ httpRetryable s = true then
        match fetchJsonWithRetry mx oracle fuel (tryNum + 1) with
        | none => none
        | some (r, c) => some (r, c + 1)
      else some (.error s, 1)

/-- `gqlRequest` (part_000 lines 884-936), with explicit fuel.  Returns
the final result paired with the number of `fetch` invocations. -/
def gqlRequest (mx : Nat) (oracle : Nat → GqlOutcome) :
    Nat → Nat → Option (Except String String × Nat)
  | 0, _ => none
  | fuel + 1, tryNum =>
    match oracle tryNum with
    | .ok p => some (.ok p, 1)
    | .httpErr s =>
      if tryNum < mx ∧ httpRetryable s = true then
        match gqlRequest mx oracle fuel (tryNum + 1) with
        | none => none
        | some (r, c) => some (r, c + 1)
      else some (.error ("GraphQL " ++ toString s), 1)
    | .appErr msg =>
      if tryNum < 3 then
        match gqlRequest mx oracle fuel (tryNum + 1) with
        | none => none
        | some (r, c) => some (r, c + 1)
      else if transientGqlMessage msg = true ∧ tryNum < mx then
        match gqlRequest mx oracle fuel (tryNum + 1) with
        | none => none
        | some (r, c) => some (r, c + 1)
      else some (.error ("GraphQL errors: " ++ msg), 1)

theorem fetchJsonWithRetry_retryable_count (mx : Nat) (st : Nat → Nat)
    (hst : ∀ t, httpRetryable (st t) = true) :
    ∀ fuel t, 1 ≤ t → t ≤ mx → mx - t < fuel →
      fetchJsonWithRetry mx (fun u => .httpErr (st u)) fuel t =
        some (.error (st mx), mx - t + 1) := by
  intro fuel
  induction fuel with
  | zero => intro t _ _ h; omega
  | succ f ih =>
    intro t ht htmx hfuel
    by_cases hlt : t < mx
    · have hrec := ih (t + 1) (by omega) (by omega) (by omega)
      simp only [fetchJsonWithRetry]
      rw [if_pos ⟨hlt, hst t⟩, hrec]
      show some (Except.error (st mx), mx - (t + 1) + 1 + 1) = _
      have hc : mx - (t + 1) + 1 + 1 = mx - t + 1 := by omega
      rw [hc]
    · have heq : t = mx := by omega
      subst heq
      simp only [fetchJsonWithRetry]
      rw [if_neg (fun hcon => absurd hcon.1 (lt_irrefl t))]
      have hc : t - t + 1 = 1 := by omega
      rw [hc]

theorem gqlRequest_retryable_count (mx : Nat) (st : Nat → Nat)
    (hst : ∀ t, httpRetryable (st t) = true) :
    ∀ fuel t, 1 ≤ t → t ≤ mx → mx - t < fuel →
      gqlRequest mx (fun u => .httpErr (st u)) fuel t =
        some (.error ("GraphQL " ++ toString (st mx)), mx - t + 1) := by
  intro fuel
  induction fuel with
  | zero => intro t _ _ h; omega
  | succ f ih =>
    intro t ht htmx hfuel
    by_cases hlt : t < mx
    · have hrec := ih (t + 1) (by omega) (by omega) (by omega)
      simp only [gqlRequest]
      rw [if_pos ⟨hlt, hst t⟩, hrec]
      show some (Except.error ("GraphQL " ++ toString (st mx)), mx - (t + 1) + 1 + 1) = _
      have hc : mx - (t + 1) + 1 + 1 = mx - t + 1 := by omega
      rw [hc]
    · have heq : t = mx := by omega
      subst heq
      simp only [gqlRequest]
      rw [if_neg (fun hcon => absurd hcon.1 (lt_irrefl t))]
      have hc : t - t + 1 = 1 := by omega
      rw [hc]

theorem gqlRequest_transient_app_count (mx : Nat) (mst : Nat → String)
    (hm : ∀ t, transientGqlMessage (mst t) = true) :
    ∀ fuel t, 1 ≤ t → t ≤ max mx 3 → max mx 3 - t < fuel →
      gqlRequest mx (fun u => .appErr (mst u)) fuel t =
        some (.error ("GraphQL errors: " ++ mst (max mx 3)), max mx 3 - t + 1) := by
  intro fuel
  induction fuel with
  | zero => intro t _ _ h; omega
  | succ f ih =>
    intro t ht htmx hfuel
    by_cases hlt : t < max mx 3
    · have hrec := ih (t + 1) (by omega) (by omega) (by omega)
      have hc : max mx 3 - (t + 1) + 1 + 1 = max mx 3 - t + 1 := by omega
      by_cases h3 : t < 3
      · simp only [gqlRequest]
        rw [if_pos h3, hrec]
        show some (Except.error ("GraphQL errors: " ++ mst (max mx 3)),
          max mx 3 - (t + 1) + 1 + 1) = _
        rw [hc]
      · have hmx3 : t < mx := by omega
        simp only [gqlRequest]
        rw [if_neg h3, if_pos ⟨hm t, hmx3⟩, hrec]
        show some (Except.error ("GraphQL errors: " ++ mst (max mx 3)),
          max mx 3 - (t + 1) + 1 + 1) = _
        rw [hc]
    · have heq : t = max mx 3 := by omega
      subst heq
      simp only [gqlRequest]
      rw [if_neg (by omega), if_neg (fun hcon => absurd hcon.2 (by omega))]
      have hc : max mx 3 - max mx 3 + 1 = 1 := by omega
      rw [hc]

theorem fetchRetryBaseDelay_mono : ∀ t u, t ≤ u →
    fetchRetryBaseDelay t ≤ fetchRetryBaseDelay u := by
  intro t u h
  exact min_le_min (Nat.mul_le_mul_left _ (Nat.pow_le_pow_right (by omega) h)) le_rfl

theorem gqlHttpBaseDelay_mono : ∀ t u, t ≤ u →
    gqlHttpBaseDelay t ≤ gqlHttpBaseDelay u := by
  intro t u h
  exact min_le_min (Nat.mul_le_mul_left _ (Nat.pow_le_pow_right (by omega) h)) le_rfl

theorem gqlErrorsDelay_mono : ∀ t u, t ≤ u →
    gqlErrorsDelay t ≤ gqlErrorsDelay u := by
  intro t u h
  unfold gqlErrorsDelay
  split
  · split
    · omega
    · have h2 : 2 ^ 3 ≤ 2 ^ u := Nat.pow_le_pow_right (by omega) (by omega)
      omega
  · split
    · omega
    · have h2 : 2 ^ t ≤ 2 ^ u := Nat.pow_le_pow_right (by omega) h
      omega

/-- C3, counterexample to the claim as stated: with `maxRetries = 2` and a
request whose every attempt yields a GraphQL errors payload matching the
transient pattern (a retryable outcome per the classification), the
executor is invoked 3 times, not `maxRetries = 2` times, because the
errors path retries unconditionally while `tryNum < 3`. -/
theorem claim_C3_counterexample :
    gqlRequest 2 (fun _ => .appErr "Internal server error") 4 1 =
      some (.error "GraphQL errors: Internal server error", 3) ∧ (3 : Nat) ≠ 2 := by
  exact ⟨rfl, by decide⟩

/-- C3 (amended): for every request whose every attempt yields a
retryable outcome, the loops terminate with a thrown failure carrying the
final error; the executor is invoked exactly `maxRetries` times when the
retryable outcomes are HTTP-level (status in the retryable set), for both
`fetchJsonWithRetry` and `gqlRequest`, and exactly `max maxRetries 3`
times (which equals `maxRetries` at the default of 5) when they are
GraphQL application-level transient errors; and the computed backoff base
delays are non-decreasing across attempts and bounded by the configured
caps (30000ms / 45000ms) on the HTTP paths. -/
theorem claim_C3_retry_exhaustion (mx : Nat) (hmx : 1 ≤ mx)
    (st : Nat → Nat) (hst : ∀ t, httpRetryable (st t) = true)
    (mst : Nat → String) (hm : ∀ t, transientGqlMessage (mst t) = true) :
    fetchJsonWithRetry mx (fun u => .httpErr (st u)) (mx + 1) 1 =
        some (.error (st mx), mx) ∧
    gqlRequest mx (fun u => .httpErr (st u)) (mx + 1) 1 =
        some (.error ("GraphQL " ++ toString (st mx)), mx) ∧
    gqlRequest mx (fun u => .appErr (mst u)) (max mx 3 + 1) 1 =
        some (.error ("GraphQL errors: " ++ mst (max mx 3)), max mx 3) ∧
    (∀ t u, t ≤ u → fetchRetryBaseDelay t ≤ fetchRetryBaseDelay u ∧
        gqlHttpBaseDelay t ≤ gqlHttpBaseDelay u ∧
        gqlErrorsDelay t ≤ gqlErrorsDelay u) ∧
    (∀ t, fetchRetryBaseDelay t ≤ 30000 ∧ gqlHttpBaseDelay t ≤ 45000) := by
  refine ⟨?_, ?_, ?_, ?_, ?_⟩
  · have h := fetchJsonWithRetry_retryable_count mx st hst (mx + 1) 1 le_rfl hmx (by omega)
    rw [show mx - 1 + 1 = mx from by omega] at h
    exact h
  · have h := gqlRequest_retryable_count mx st hst (mx + 1) 1 le_rfl hmx (by omega)
    rw [show mx - 1 + 1 = mx from by omega] at h
    exact h
  · have h := gqlRequest_transient_app_count mx mst hm (max mx 3 + 1) 1 le_rfl
      (by omega) (by omega)
    rw [show max mx 3 - 1 + 1 = max mx 3 from by omega] at h
    exact h
  · exact fun t u h =>
      ⟨fetchRetryBaseDelay_mono t u h, gqlHttpBaseDelay_mono t u h, gqlErrorsDelay_mono t u h⟩
  · intro t
    exact ⟨min_le_right _ _, min_le_right _ _⟩

/-- Witness for C3 (amended): with `maxRetries = 5` and an oracle that
always answers HTTP 503, the executor runs exactly 5 times and the final
error carries status 503. -/
theorem claim_C3_retry_exhaustion_witness :
    fetchJsonWithRetry 5 (fun u => .httpErr ((fun _ => 503) u)) 6 1 =
      some (.error ((fun _ => 503) 5), 5) :=
  (claim_C3_retry_exhaustion 5 (by decide) (fun _ => 503) (fun _ => rfl)
    (fun _ => "Internal server error") (fun _ => rfl)).1

/-- C4, counterexample to the claim as stated: a provider-reported
application-level error whose message does not match the transient
pattern is nevertheless retried (3 executor invocations instead of a
single fatal one), because `gqlRequest` retries any GraphQL errors
payload unconditionally while `tryNum < 3`. -/
theorem claim_C4_counterexample :
    transientGqlMessage "Cannot query field" = false ∧
    gqlRequest 5 (fun _ => .appErr "Cannot query field") 6 1 =
      some (.error "GraphQL errors: Cannot query field", 3) := by
  exact ⟨by decide, rfl⟩

/-- C4 (amended): HTTP statuses 429, 500, 502, 503, 504 are retryable
and every other non-2xx status is immediately fatal, for both clients; a
provider-reported GraphQL errors payload is retried unconditionally on
attempts 1 and 2 regardless of content and, from attempt 3 on, is fatal
unless the message contains "Internal server error", in which case it is
retried while the attempt counter is below `maxRetries`. -/
theorem claim_C4_classification (mx fuel t : Nat) (oracle : Nat → GqlOutcome)
    (orF : Nat → FetchOutcome) :
    (∀ s, httpRetryable s = true ↔
      (s = 429 ∨ s = 500 ∨ s = 502 ∨ s = 503 ∨ s = 504)) ∧
    (∀ s, oracle t = .httpErr s → httpRetryable s = false →
      gqlRequest mx oracle (fuel + 1) t =
        some (.error ("GraphQL " ++ toString s), 1)) ∧
    (∀ s, orF t = .httpErr s → httpRetryable s = false →
      fetchJsonWithRetry mx orF (fuel + 1) t = some (.error s, 1)) ∧
    (∀ s, oracle t = .httpErr s → httpRetryable s = true → t < mx →
      gqlRequest mx oracle (fuel + 1) t =
        (gqlRequest mx oracle fuel (t + 1)).map (fun rc => (rc.1, rc.2 + 1))) ∧
    (∀ s, orF t = .httpErr s → httpRetryable s = true → t < mx →
      fetchJsonWithRetry mx orF (fuel + 1) t =
        (fetchJsonWithRetry mx orF fuel (t + 1)).map (fun rc => (rc.1, rc.2 + 1))) ∧
    (∀ msg, oracle t = .appErr msg → t < 3 →
      gqlRequest mx oracle (fuel + 1) t =
        (gqlRequest mx oracle fuel (t + 1)).map (fun rc => (rc.1, rc.2 + 1))) ∧
    (∀ msg, oracle t = .appErr msg → ¬ t < 3 → transientGqlMessage msg = false →
      gqlRequest mx oracle (fuel + 1) t =
        some (.error ("GraphQL errors: " ++ msg), 1)) ∧
    (∀ msg, oracle t = .appErr msg → ¬ t < 3 → transientGqlMessage msg = true →
      t < mx →
      gqlRequest mx oracle (fuel + 1) t =
        (gqlRequest mx oracle fuel (t + 1)).map (fun rc => (rc.1, rc.2 + 1))) := by
  refine ⟨?_, ?_, ?_, ?_, ?_, ?_, ?_, ?_⟩
  · intro s
    simp only [httpRetryable, List.contains_eq_any_beq, List.any_cons,
      List.any_nil, Bool.or_eq_true, beq_iff_eq, Bool.or_eq_false_iff]
    constructor
    · rintro (h | h | h | h | h | h)
      all_goals simp_all
    · rintro (h | h | h | h | h)
      all_goals simp_all
  · intro s hor hret
    simp only [gqlRequest, hor]
    rw [if_neg (fun hcon => by rw [hret] at hcon; exact Bool.false_ne_true hcon.2)]
  · intro s hor hret
    simp only [fetchJsonWithRetry, hor]
    rw [if_neg (fun hcon => by rw [hret] at hcon; exact Bool.false_ne_true hcon.2)]
  · intro s hor hret hlt
    simp only [gqlRequest, hor]
    rw [if_pos ⟨hlt, hret⟩]
    cases gqlRequest mx oracle fuel (t + 1) with
    | none => rfl
    | some rc => rfl
  · intro s hor hret hlt
    simp only [fetchJsonWithRetry, hor]
    rw [if_pos ⟨hlt, hret⟩]
    cases fetchJsonWithRetry mx orF fuel (t + 1) with
    | none => rfl
    | some rc => rfl
  · intro msg hor h3
    simp only [gqlRequest, hor]
    rw [if_pos h3]
    cases gqlRequest mx oracle fuel (t + 1) with
    | none => rfl
    | some rc => rfl
  · intro msg hor h3 htr
    simp only [gqlRequest, hor]
    rw [if_neg h3,
      if_neg (fun hcon => by rw [htr] at hcon; exact Bool.false_ne_true hcon.1)]
  · intro msg hor h3 htr hlt
    simp only [gqlRequest, hor]
    rw [if_neg h3, if_pos ⟨htr, hlt⟩]
    cases gqlRequest mx oracle fuel (t + 1) with
    | none => rfl
    | some rc => rfl

/-- Witness for C4 (amended): at attempt 3, a non-transient GraphQL
errors payload is fatal with a single executor invocation. -/
theorem claim_C4_classification_witness :
    gqlRequest 5 (fun _ => .appErr "bad request") (0 + 1) 3 =
      some (.error ("GraphQL errors: " ++ "bad request"), 1) :=
  (claim_C4_classification 5 0 3 (fun _ => .appErr "bad request")
    (fun _ => .ok "")).2.2.2.2.2.2.1 "bad request" rfl (by decide) (by decide)

/- ================================================================
   Concurrency gate (part_000: pLimit, lines 803-828).

   pLimit(concurrency) keeps `active` (number of running tasks) and
   `queue` (FIFO array of pending task starters).  A submission runs
   immediately when `active < concurrency`, else it is pushed on the
   queue.  On task settlement (fulfilment or rejection alike) `next()`
   runs: `active--; if (queue.length) queue.shift()()`, and the task's
   own promise is resolved or rejected.

   The gate is modelled as a labelled transition system over an abstract
   state; events are task submission and task settlement (with a failure
   flag).  Task identifiers are natural numbers.
   ================================================================ -/

structure GateState where
  active : Nat
  running : List Nat
  queue : List Nat
  resolved : List Nat
  rejected : List Nat
deriving DecidableEq, Repr

def GateState.init : GateState := ⟨0, [], [], [], []⟩

/-- Submission: `if (active < concurrency) run(); else queue.push(run)`. -/
def submitTask (c : Nat) (s : GateState) (t : Nat) : GateState :=
  if s.active < c then
    { s with active := s.active + 1, running := s.running ++ [t] }
  else
    { s with queue := s.queue ++ [t] }

/-- `next()`: `active--; if (queue.length) queue.shift()()`. -/
def releaseSlot (s : GateState) : GateState :=
  match s.queue with
  | [] => { s with active := s.active - 1 }
  | q :: qs =>
    { s with active := s.active - 1 + 1, running := s.running ++ [q], queue := qs }

/-- A running task settles: whether it fulfilled or rejected, `next()`
releases its slot; the outcome is recorded on the task's own promise
only. -/
def finishTask (s : GateState) (t : Nat) (failed : Bool) : GateState :=
  releaseSlot
    { s with running := s.running.erase t,
             resolved := if failed then s.resolved else s.resolved ++ [t],
             rejected := if failed then s.rejected ++ [t] else s.rejected }

/-- States reachable by the gate from the empty state under any sequence
of submissions and settlements of running tasks. -/
inductive GateReachable (c : Nat) : GateState → Prop where
  | init : GateReachable c GateState.init
  | submit (s : GateState) (t : Nat) (hs : GateReachable c s) :
      GateReachable c (submitTask c s t)
  | finish (s : GateState) (t : Nat) (failed : Bool) (ht : t ∈ s.running)
      (hs : GateReachable c s) : GateReachable c (finishTask s t failed)

def GateInv (c : Nat) (s : GateState) : Prop :=
  s.active = s.running.length ∧ s.active ≤ c ∧ (s.queue ≠ [] → s.active = c)

theorem gateInv_of_reachable (c : Nat) (s : GateState) (hs : GateReachable c s) :
    GateInv c s := by
  induction hs with
  | init =>
    refine ⟨rfl, ?_, fun h => absurd rfl h⟩
    show (0 : Nat) ≤ c
    omega
  | submit s t hs ih =>
    obtain ⟨ih1, ih2, ih3⟩ := ih
    unfold submitTask
    split
    · rename_i hlt
      refine ⟨?_, ?_, ?_⟩
      · show s.active + 1 = (s.running ++ [t]).length
        simp [ih1]
      · show s.active + 1 ≤ c
        omega
      · intro hq2
        have := ih3 hq2
        show s.active + 1 = c
        omega
    · rename_i hge
      refine ⟨ih1, ih2, ?_⟩
      intro _
      show s.active = c
      omega
  | finish s t failed ht hs ih =>
    obtain ⟨ih1, ih2, ih3⟩ := ih
    have hlen : (s.running.erase t).length = s.running.length - 1 :=
      List.length_erase_of_mem ht
    have hpos : 1 ≤ s.running.length := List.length_pos.mpr (List.ne_nil_of_mem ht)
    unfold finishTask releaseSlot
    dsimp only
    cases hq : s.queue with
    | nil =>
      refine ⟨?_, ?_, fun h => absurd rfl h⟩
      · show s.active - 1 = (s.running.erase t).length
        omega
      · show s.active - 1 ≤ c
        omega
    | cons q qs =>
      have hc : s.active = c := ih3 (by simp [hq])
      refine ⟨?_, ?_, ?_⟩
      · show s.active - 1 + 1 = (s.running.erase t ++ [q]).length
        simp only [List.length_append, List.length_cons, List.length_nil, hlen]
        omega
      · show s.active - 1 + 1 ≤ c
        omega
      · intro _
        show s.active - 1 + 1 = c
        omega

/-- C5: the concurrency gate guarantees at most `c` tasks running at any
instant (the instrumented running list never exceeds the gate size, and
`active` counts it exactly); when a task settles while the queue is
non-empty, exactly the queue head is started and the rest of the queue is
kept in order (FIFO release); a failing settlement changes the gate state
(active/running/queue) exactly as a successful one — the slot is always
released — and records the rejection on the failing task's promise only;
and with gate size at least 1 the gate cannot deadlock: a non-empty queue
implies some task is running and can still settle. -/
theorem claim_C5_concurrency_gate (c : Nat) (s : GateState)
    (hs : GateReachable c s) :
    (s.running.length ≤ c ∧ s.active = s.running.length) ∧
    (∀ t q qs, s.queue = q :: qs → ∀ failed,
      (finishTask s t failed).running = s.running.erase t ++ [q] ∧
      (finishTask s t failed).queue = qs) ∧
    (∀ t, (finishTask s t true).active = (finishTask s t false).active ∧
      (finishTask s t true).running = (finishTask s t false).running ∧
      (finishTask s t true).queue = (finishTask s t false).queue ∧
      (finishTask s t true).rejected = s.rejected ++ [t] ∧
      (finishTask s t true).resolved = s.resolved) ∧
    (1 ≤ c → s.queue ≠ [] → s.running ≠ []) := by
  obtain ⟨h1, h2, h3⟩ := gateInv_of_reachable c s hs
  refine ⟨⟨by omega, h1⟩, ?_, ?_, ?_⟩
  · intro t q qs hq failed
    unfold finishTask releaseSlot
    dsimp only
    rw [hq]
    exact ⟨rfl, rfl⟩
  · intro t
    unfold finishTask releaseSlot
    dsimp only
    cases hq : s.queue with
    | nil => exact ⟨rfl, rfl, rfl, rfl, rfl⟩
    | cons q qs => exact ⟨rfl, rfl, rfl, rfl, rfl⟩
  · intro hc hq
    have := h3 hq
    have : 1 ≤ s.running.length := by omega
    exact List.ne_nil_of_length_pos (by omega)

/-- Witness for C5: with gate size 1, submitting tasks 10 then 20 runs
task 10 and queues task 20; the reachable-state invariant gives at most
one running task. -/
theorem claim_C5_concurrency_gate_witness :
    GateReachable 1 (submitTask 1 (submitTask 1 GateState.init 10) 20) ∧
      (submitTask 1 (submitTask 1 GateState.init 10) 20).running.length ≤ 1 := by
  have h : GateReachable 1 (submitTask 1 (submitTask 1 GateState.init 10) 20) :=
    GateReachable.submit _ 20 (GateReachable.submit _ 10 GateReachable.init)
  exact ⟨h, (claim_C5_concurrency_gate 1 _ h).1.1⟩

/- ================================================================
   Vault depositor transaction trimming (part_000, lines 1645-1675):

     const extractAssetsUsd = (tx) => {
       if (!tx.data) return 0;
       return parseFloat(tx.data.assetsUsd || tx.data.repaidAssetsUsd || 0);
     };
     const sortedTransactions = allTransactions.sort((a, b) =>
       extractAssetsUsd(b) - extractAssetsUsd(a));
     const top5Transactions = sortedTransactions.slice(0, 5);

   Transaction `data` payloads carry `assetsUsd` (transfer-like types) or
   `repaidAssetsUsd` (liquidations), or neither; absent fields are
   JS-falsy, as is a 0 value, so `||` falls through on both.  USD values
   are modelled as integers.  `Array.prototype.sort` is stable and the
   comparator induces the descending order on the extracted value, so the
   sort is modelled as the stable descending insertion sort. -/

structure VaultTxData where
  assetsUsd : Option Int
  repaidAssetsUsd : Option Int
deriving DecidableEq, Repr

structure VaultTx where
  hash : String
  data : Option VaultTxData
deriving DecidableEq, Repr

/-- JS truthiness of a possibly-absent numeric field: absent, and the
number 0, are falsy. -/
def truthyNum : Option Int → Bool
  | none => false
  | some v => v != 0

/-- `extractAssetsUsd` (part_000 lines 1651-1658). -/
def extractAssetsUsd (tx : VaultTx) : Int :=
  match tx.data with
  | none => 0
  | some d =>
    if truthyNum d.assetsUsd then d.assetsUsd.getD 0
    else if truthyNum d.repaidAssetsUsd then d.repaidAssetsUsd.getD 0
    else 0

/-- Stable insertion into a list sorted descending by `f`: the new
element goes before the first strictly smaller key, after equal keys —
matching the stable JS sort under comparator `f(b) - f(a)`. -/
def insertDescBy (f : VaultTx → Int) (x : VaultTx) : List VaultTx → List VaultTx
  | [] => [x]
  | y :: ys => if f y ≤ f x then x :: y :: ys
               else y :: insertDescBy f x ys

/-- Stable sort, descending by `f` (the JS
`sort((a, b) => f(b) - f(a))`). -/
def sortDescBy (f : VaultTx → Int) : List VaultTx → List VaultTx
  | [] => []
  | x :: xs => insertDescBy f x (sortDescBy f xs)

/-- `sortedTransactions.slice(0, 5)`: the retained per-depositor
transaction list in the `morpho_vault_top_depositors` sheet row. -/
def top5Transactions (txs : List VaultTx) : List VaultTx :=
  (sortDescBy extractAssetsUsd txs).take 5

theorem insertDescBy_perm (f : VaultTx → Int) (x : VaultTx) (l : List VaultTx) :
    (insertDescBy f x l).Perm (x :: l) := by
  induction l with
  | nil => exact List.Perm.refl _
  | cons y ys ih =>
    unfold insertDescBy
    split
    · exact List.Perm.refl _
    · exact ((ih.cons y).trans (List.Perm.swap x y ys))

theorem sortDescBy_perm (f : VaultTx → Int) (l : List VaultTx) :
    (sortDescBy f l).Perm l := by
  induction l with
  | nil => exact List.Perm.refl _
  | cons x xs ih =>
    exact (insertDescBy_perm f x (sortDescBy f xs)).trans (ih.cons x)

theorem insertDescBy_sorted (f : VaultTx → Int) (x : VaultTx) (l : List VaultTx)
    (hl : l.Pairwise (fun a b => f b ≤ f a)) :
    (insertDescBy f x l).Pairwise (fun a b => f b ≤ f a) := by
  induction l with
  | nil => simp [insertDescBy]
  | cons y ys ih =>
    have hy := List.pairwise_cons.mp hl
    unfold insertDescBy
    split
    · rename_i h
      refine List.pairwise_cons.mpr ⟨?_, hl⟩
      intro b hb
      rcases List.mem_cons.mp hb with hb | hb
      · subst hb
        omega
      · have := hy.1 b hb
        omega
    · rename_i h
      refine List.pairwise_cons.mpr ⟨?_, ih hy.2⟩
      intro b hb
      have hb2 := (insertDescBy_perm f x ys).mem_iff.mp hb
      rcases List.mem_cons.mp hb2 with hb3 | hb3
      · subst hb3
        omega
      · exact hy.1 b hb3

theorem sortDescBy_sorted (f : VaultTx → Int) (l : List VaultTx) :
    (sortDescBy f l).Pairwise (fun a b => f b ≤ f a) := by
  induction l with
  | nil => simp [sortDescBy]
  | cons x xs ih => exact insertDescBy_sorted f x (sortDescBy f xs) ih

/-- A depositor transaction with no USD-extractable payload. -/
def vtxNoUsd (h : String) : VaultTx := ⟨h, none⟩

/-- A depositor transaction carrying a direct `assetsUsd` value. -/
def vtxUsd (h : String) (v : Int) : VaultTx := ⟨h, some ⟨some v, none⟩⟩

/-- End-to-end scenario 3: seven transactions, three with direct USD
values 100, 50, 10 interleaved with four carrying no USD-extractable
field. -/
def scenario3Txs : List VaultTx :=
  [vtxNoUsd "a", vtxUsd "t1" 100, vtxNoUsd "b", vtxUsd "t2" 50,
   vtxNoUsd "c", vtxUsd "t3" 10, vtxNoUsd "d"]

/-- C6: for every vault depositor, the row retains exactly the top-5 of
the depositor's transactions ranked descending by `extractAssetsUsd`
(which reads `data.assetsUsd`, else `data.repaidAssetsUsd`, else 0): the
retained list is the 5-prefix of the descending stable sort, has length
`min 5 n`, the sort is a permutation of the input sorted descending by
the extracted value, and every retained transaction dominates every
dropped one.  In scenario 3 (7 transactions; direct USD values 100, 50,
10; four with no USD-extractable field) exactly the 3 non-zero
transactions appear first, sorted descending, within the retained
top-5. -/
theorem claim_C6_top5_depositor_txs :
    (∀ txs : List VaultTx,
      top5Transactions txs = (sortDescBy extractAssetsUsd txs).take 5 ∧
      (top5Transactions txs).length = min 5 txs.length ∧
      (sortDescBy extractAssetsUsd txs).Perm txs ∧
      (sortDescBy extractAssetsUsd txs).Pairwise
        (fun a b => extractAssetsUsd b ≤ extractAssetsUsd a) ∧
      (∀ a ∈ top5Transactions txs,
        ∀ b ∈ (sortDescBy extractAssetsUsd txs).drop 5,
        extractAssetsUsd b ≤ extractAssetsUsd a)) ∧
    top5Transactions scenario3Txs =
      [vtxUsd "t1" 100, vtxUsd "t2" 50, vtxUsd "t3" 10,
       vtxNoUsd "a", vtxNoUsd "b"] ∧
    (top5Transactions scenario3Txs).map extractAssetsUsd =
      [100, 50, 10, 0, 0] := by
  refine ⟨?_, by decide, by decide⟩
  intro txs
  refine ⟨rfl, ?_, sortDescBy_perm _ txs, sortDescBy_sorted _ txs, ?_⟩
  · rw [top5Transactions, List.length_take,
      (sortDescBy_perm extractAssetsUsd txs).length_eq]
  · intro a ha b hb
    have hsorted := sortDescBy_sorted extractAssetsUsd txs
    rw [← List.take_append_drop 5 (sortDescBy extractAssetsUsd txs)] at hsorted
    exact (List.pairwise_append.mp hsorted).2.2 a ha b hb

/- ================================================================
   Hierarchical aggregation and error policy.

   Two implementations are embedded:

   * `MorphoDataBuilder.buildCompleteDataset` (get_morpho_data.js lines
     283-381): per-market try/catch (market emitted with empty borrowers
     and an `error` note), per-borrower try/catch around the transaction
     fetch (borrower emitted with empty transactions and an `error`
     note); markets with missing loan/collateral asset are skipped; a
     failure of `getAllMarkets` propagates out.

   * part_000 `run()` step 2 (lines 1385-1406): for each market the gate
     task runs `fetchTopBorrowersForMarket` and, per borrower,
     `fetchAllUserTransactionsForMarket` with NO try/catch; a rejection
     anywhere rejects the surrounding `Promise.all`, so `run()` fails as
     a whole (run().catch exits the process).  A borrower without a user
     address gets `[]` transactions without any fetch.

   * part_000 `run()` vault loop (lines 1414-1477) together with
     `fetchVaultDepositors` (lines 1208-1220), for C2's vault clause and
     C8's circuit breaker.

   Only the fields the error policy depends on are modelled; network
   calls are oracles.  Transactions are identified by hash strings.
   ================================================================ -/

structure MMarket where
  uniqueKey : String
  hasLoanAsset : Bool
  hasCollateralAsset : Bool
deriving DecidableEq, Repr

structure MBorrower where
  userAddress : Option String
deriving DecidableEq, Repr

structure BorrowerEntry where
  borrower : MBorrower
  transactions : List String
  errorNote : Option String
deriving DecidableEq, Repr

structure MarketEntry where
  market : MMarket
  topBorrowers : List BorrowerEntry
  errorNote : Option String
deriving DecidableEq, Repr

structure BuilderOracle where
  allMarkets : Except String (List MMarket)
  topBorrowers : String → Except String (List MBorrower)
  userTxs : String → String → Except String (List String)

/-- `!market.loanAsset || !market.collateralAsset` → market is skipped. -/
def hasAssets (m : MMarket) : Bool := m.hasLoanAsset && m.hasCollateralAsset

/-- The builder's per-borrower loop: the inner try/catch wraps only
`getUserTransactions`; accessing a missing `borrower.user.address`
(logged before the inner try) throws out to the per-market catch. -/
def builderBorrowerLoop (o : BuilderOracle) (mk : String) :
    List MBorrower → Except String (List BorrowerEntry)
  | [] => .ok []
  | b :: bs =>
    match b.userAddress with
    | none => .error "TypeError: cannot read address of undefined"
    | some ua =>
      let entry : BorrowerEntry :=
        match o.userTxs ua mk with
        | .ok txs => ⟨b, txs, none⟩
        | .error e => ⟨b, [], some e⟩
      match builderBorrowerLoop o mk bs with
      | .ok rest => .ok (entry :: rest)
      | .error e => .error e

/-- One market's entry in `buildCompleteDataset`: the per-market
try/catch converts any failure into an entry with empty `topBorrowers`
and an `error` note. -/
def buildMarketEntry (o : BuilderOracle) (m : MMarket) : MarketEntry :=
  match o.topBorrowers m.uniqueKey with
  | .error e => ⟨m, [], some e⟩
  | .ok tbs =>
    match builderBorrowerLoop o m.uniqueKey tbs with
    | .error e => ⟨m, [], some e⟩
    | .ok entries => ⟨m, entries, none⟩

/-- `MorphoDataBuilder.buildCompleteDataset` (get_morpho_data.js lines
283-381). -/
def buildCompleteDataset (o : BuilderOracle) : Except String (List MarketEntry) :=
  match o.allMarkets with
  | .error e => .error e
  | .ok ms => .ok ((ms.filter (fun m => hasAssets m)).map (buildMarketEntry o))

structure P0Entry where
  market : MMarket
  topBorrowers : List (MBorrower × List String)
deriving DecidableEq, Repr

/-- part_000 `run()` step 2, inner borrower loop: no try/catch, so a
transaction-fetch failure rejects the whole market task. -/
def p0EnrichBorrowers (o : BuilderOracle) (mk : String) :
    List MBorrower → Except String (List (MBorrower × List String))
  | [] => .ok []
  | b :: bs =>
    match b.userAddress with
    | none =>
      match p0EnrichBorrowers o mk bs with
      | .ok rest => .ok ((b, []) :: rest)
      | .error e => .error e
    | some ua =>
      match o.userTxs ua mk with
      | .error e => .error e
      | .ok txs =>
        match p0EnrichBorrowers o mk bs with
        | .ok rest => .ok ((b, txs) :: rest)
        | .error e => .error e

/-- part_000 `run()` step 2: markets mapped over the gate and awaited
with `Promise.all` — any rejected market task rejects the stage. -/
def p0RunMarketStage (o : BuilderOracle) :
    List MMarket → Except String (List P0Entry)
  | [] => .ok []
  | m :: ms =>
    match o.topBorrowers m.uniqueKey with
    | .error e => .error e
    | .ok tbs =>
      match p0EnrichBorrowers o m.uniqueKey tbs with
      | .error e => .error e
      | .ok enriched =>
        match p0RunMarketStage o ms with
        | .ok rest => .ok (⟨m, enriched⟩ :: rest)
        | .error e => .error e

/-- `fetchVaultDepositors` (part_000 lines 1208-1220): its own try/catch
converts any `gqlRequest` failure into an empty depositor list. -/
def fetchVaultDepositors (dep : Except String (List String)) : List String :=
  match dep with
  | .ok items => items
  | .error _ => []

structure VaultLoopState where
  results : List (String × List String)
  consecutiveFailures : Nat
  failureCount : Nat
  breakerFires : Nat
deriving DecidableEq, Repr

def VaultLoopState.init : VaultLoopState := ⟨[], 0, 0, 0⟩

/-- One iteration of the `run()` vault loop (part_000 lines 1418-1477):
circuit-breaker check (at 5 consecutive failures, an extended cooldown
of 5000ms + jitter is slept and the counter resets), then the awaited
depositor fetch inside try/catch — success stores the items and resets
the counter, the catch branch stores `[]` and bumps both failure
counters. -/
def vaultLoopStep (st : VaultLoopState) (va : String)
    (fetched : Except String (List String)) : VaultLoopState :=
  let st1 := if 5 ≤ st.consecutiveFailures
    then { st with breakerFires := st.breakerFires + 1, consecutiveFailures := 0 }
    else st
  match fetched with
  | .ok items =>
    { st1 with results := st1.results ++ [(va, items)], consecutiveFailures := 0 }
  | .error _ =>
    { st1 with results := st1.results ++ [(va, [])],
               failureCount := st1.failureCount + 1,
               consecutiveFailures := st1.consecutiveFailures + 1 }

/-- The vault loop as composed in `run()`: the awaited expression is
`fetchVaultDepositors(va)`, which never throws, so the step always takes
the success branch. -/
def runVaultLoopAux (gql : Nat → Except String (List String)) :
    List String → Nat → VaultLoopState → VaultLoopState
  | [], _, st => st
  | va :: rest, i, st =>
    runVaultLoopAux gql rest (i + 1)
      (vaultLoopStep st va (.ok (fetchVaultDepositors (gql i))))

def runVaultLoop (gql : Nat → Except String (List String))
    (vaults : List String) : VaultLoopState :=
  runVaultLoopAux gql vaults 0 VaultLoopState.init

/-- The same loop body applied to the raw fetch outcomes — the behaviour
`run()`'s catch block was written for (reachable only if
`fetchVaultDepositors` did not swallow errors itself). -/
def runVaultLoopDirectAux (dep : Nat → Except String (List String)) :
    List String → Nat → VaultLoopState → VaultLoopState
  | [], _, st => st
  | va :: rest, i, st =>
    runVaultLoopDirectAux dep rest (i + 1) (vaultLoopStep st va (dep i))

def runVaultLoopDirect (dep : Nat → Except String (List String))
    (vaults : List String) : VaultLoopState :=
  runVaultLoopDirectAux dep vaults 0 VaultLoopState.init

/-- Expected result rows of the vault loop: one row per vault, in order,
with the (error-swallowed) depositor list. -/
def expectedVaultRows (gql : Nat → Except String (List String)) :
    List String → Nat → List (String × List String)
  | [], _ => []
  | va :: rest, i => (va, fetchVaultDepositors (gql i)) :: expectedVaultRows gql rest (i + 1)

theorem runVaultLoopAux_results (gql : Nat → Except String (List String)) :
    ∀ vaults i st, (runVaultLoopAux gql vaults i st).results =
      st.results ++ expectedVaultRows gql vaults i := by
  intro vaults
  induction vaults with
  | nil => intro i st; simp [runVaultLoopAux, expectedVaultRows]
  | cons va rest ih =>
    intro i st
    simp only [runVaultLoopAux, expectedVaultRows, ih]
    unfold vaultLoopStep
    split
    · simp
    · simp

theorem runVaultLoopAux_counters (gql : Nat → Except String (List String)) :
    ∀ vaults i st, st.consecutiveFailures = 0 →
      (runVaultLoopAux gql vaults i st).consecutiveFailures = 0 ∧
      (runVaultLoopAux gql vaults i st).failureCount = st.failureCount ∧
      (runVaultLoopAux gql vaults i st).breakerFires = st.breakerFires := by
  intro vaults
  induction vaults with
  | nil => intro i st h; exact ⟨h, rfl, rfl⟩
  | cons va rest ih =>
    intro i st h
    simp only [runVaultLoopAux]
    have hstep : vaultLoopStep st va (.ok (fetchVaultDepositors (gql i))) =
        { st with results := st.results ++ [(va, fetchVaultDepositors (gql i))],
                  consecutiveFailures := 0 } := by
      unfold vaultLoopStep
      rw [if_neg (by omega)]
    rw [hstep]
    exact ih (i + 1) _ rfl

def cexMarket : MMarket := ⟨"mk1", true, true⟩

def cexOracle : BuilderOracle :=
  ⟨.ok [cexMarket], fun _ => .error "HTTP 503 after retries", fun _ _ => .ok []⟩

/-- C2, counterexample to the claim as stated: in part_000's `run()`, a
failure to fetch one market's top borrowers is not caught — the whole
market stage (and with it the run) fails, and the market entity is not
emitted at all. -/
theorem claim_C2_counterexample :
    p0RunMarketStage cexOracle [cexMarket] = .error "HTTP 503 after retries" := rfl

/-- C2 (amended): in `MorphoDataBuilder.buildCompleteDataset`, failure to
fetch a market's top borrowers or a user's transactions is caught and
isolated — the enclosing market/borrower is still emitted with an empty
child collection plus an attached error note, and only failure of the
top-level market listing aborts the build.  In part_000's `run()`, only
the per-vault depositor fetch is isolated (the vault row is emitted with
an empty depositor list, with no error note), while the market stage
succeeds only if every market's borrower listing succeeded — a failure
there aborts the run. -/
theorem claim_C2_error_isolation (o : BuilderOracle) :
    (∀ e, o.allMarkets = .error e → buildCompleteDataset o = .error e) ∧
    (∀ ms, o.allMarkets = .ok ms →
      buildCompleteDataset o =
        .ok ((ms.filter (fun m => hasAssets m)).map (buildMarketEntry o))) ∧
    (∀ m e, o.topBorrowers m.uniqueKey = .error e →
      buildMarketEntry o m = ⟨m, [], some e⟩) ∧
    (∀ mk b bs ua e, b.userAddress = some ua → o.userTxs ua mk = .error e →
      builderBorrowerLoop o mk (b :: bs) =
        (builderBorrowerLoop o mk bs).map
          (fun rest => (⟨b, [], some e⟩ : BorrowerEntry) :: rest)) ∧
    (∀ gql vaults,
      (runVaultLoop gql vaults).results = expectedVaultRows gql vaults 0) ∧
    (∀ msg, fetchVaultDepositors (.error msg) = []) ∧
    (∀ markets entries, p0RunMarketStage o markets = .ok entries →
      ∀ m, m ∈ markets → ∃ tbs, o.topBorrowers m.uniqueKey = .ok tbs) := by
  refine ⟨?_, ?_, ?_, ?_, ?_, ?_, ?_⟩
  · intro e h
    simp [buildCompleteDataset, h]
  · intro ms h
    simp [buildCompleteDataset, h]
  · intro m e h
    simp [buildMarketEntry, h]
  · intro mk b bs ua e hb he
    simp only [builderBorrowerLoop, hb, he]
    cases h2 : builderBorrowerLoop o mk bs with
    | ok rest => simp [Except.map]
    | error e2 => simp [Except.map]
  · intro gql vaults
    have h := runVaultLoopAux_results gql vaults 0 VaultLoopState.init
    simpa [runVaultLoop, VaultLoopState.init] using h
  · intro msg
    rfl
  · intro markets
    induction markets with
    | nil =>
      intro entries h m hm
      simp at hm
    | cons m0 ms0 ih =>
      intro entries h m hm
      cases htb : o.topBorrowers m0.uniqueKey with
      | error e =>
        rw [p0RunMarketStage, htb] at h
        cases h
      | ok tbs =>
        rcases List.mem_cons.mp hm with rfl | hm2
        · exact ⟨tbs, htb⟩
        · rw [p0RunMarketStage, htb] at h
          dsimp only at h
          cases hen : p0EnrichBorrowers o m0.uniqueKey tbs with
          | error e =>
            rw [hen] at h
            cases h
          | ok enr =>
            rw [hen] at h
            cases hrest : p0RunMarketStage o ms0 with
            | error e =>
              rw [hrest] at h
              cases h
            | ok rest => exact ih rest hrest m hm2

/-- Witness for C2 (amended): the builder still emits a market whose
borrower listing failed, carrying an empty borrower list and the error
note. -/
theorem claim_C2_error_isolation_witness :
    buildMarketEntry cexOracle cexMarket =
      ⟨cexMarket, [], some "HTTP 503 after retries"⟩ :=
  (claim_C2_error_isolation cexOracle).2.2.1 cexMarket "HTTP 503 after retries" rfl

/-- C8 (code bug): `run()`'s vault loop tracks `consecutiveFailures`
with threshold 5 and a 5s+jitter cooldown, but `fetchVaultDepositors`
catches every fetch error internally and returns `[]`, so the loop's
catch block is unreachable: for every oracle the counter stays 0 and the
breaker never fires.  Had the raw fetch outcomes reached the loop body
(`runVaultLoopDirect`), six consecutive failures would fire the breaker
exactly once and count six failures — the behaviour the claim (and the
code's own comments) describe. -/
theorem claim_C8_circuit_breaker_dead :
    (∀ gql vaults,
      (runVaultLoop gql vaults).breakerFires = 0 ∧
      (runVaultLoop gql vaults).failureCount = 0 ∧
      (runVaultLoop gql vaults).consecutiveFailures = 0) ∧
    (runVaultLoopDirect (fun _ => .error "HTTP 503")
        ["v1", "v2", "v3", "v4", "v5", "v6"]).breakerFires = 1 ∧
    (runVaultLoopDirect (fun _ => .error "HTTP 503")
        ["v1", "v2", "v3", "v4", "v5", "v6"]).failureCount = 6 := by
  refine ⟨?_, by decide, by decide⟩
  intro gql vaults
  have h := runVaultLoopAux_counters gql vaults 0 VaultLoopState.init rfl
  exact ⟨h.2.2, h.2.1, h.1⟩

/- ================================================================
   Flattening & export (part_000: flatten, lines 1260-1283; csvEscape,
   lines 1285-1297; toMultiSheetCSVString, lines 1299-1320).

   JSON values are modelled by `JsValue`; `undefined` is merged with
   `null` (both flatten to "" and both are JS-falsy).  JS numbers are
   modelled as integers.  The flat map `out` is an insertion-ordered
   association list; `out[key] = v` (`setKey`) overwrites an existing
   key in place, else appends.  Scalar values are stored as their JS
   string renderings, which is what `csvEscape` produces for them
   downstream in either case.
   ================================================================ -/

inductive JsValue where
  | null
  | str (s : String)
  | num (n : Int)
  | bool (b : Bool)
  | arr (xs : List JsValue)
  | obj (fs : List (String × JsValue))

/-- `typeof v === "object"` — true for objects, arrays and JS `null`. -/
def typeofIsObject : JsValue → Bool
  | .null => true
  | .arr _ => true
  | .obj _ => true
  | _ => false

def jsonEscapeChar (c : Char) : String :=
  if c = '"' then "\\\""
  else if c = '\\' then "\\\\"
  else if c = '\n' then "\\n"
  else String.singleton c

def quoteJson (s : String) : String :=
  "\"" ++ String.join (s.toList.map jsonEscapeChar) ++ "\""

/- JSON.stringify on the modelled values. -/
mutual
/-- `JSON.stringify` on the modelled values. -/
def stringifyV : JsValue → String
  | .null => "null"
  | .str s => quoteJson s
  | .num n => toString n
  | .bool b => if b then "true" else "false"
  | .arr xs => "[" ++ stringifyArr xs ++ "]"
  | .obj fs => "\x7b" ++ stringifyObj fs ++ "\x7d"
def stringifyArr : List JsValue → String
  | [] => ""
  | [v] => stringifyV v
  | v :: rest => stringifyV v ++ "," ++ stringifyArr rest
def stringifyObj : List (String × JsValue) → String
  | [] => ""
  | [(k, v)] => quoteJson k ++ ":" ++ stringifyV v
  | (k, v) :: rest => quoteJson k ++ ":" ++ stringifyV v ++ "," ++ stringifyObj rest
end

mutual
/-- JS `String(v)` as used by `Array.prototype.join`: null/undefined
render empty, arrays render as their comma-join, plain objects as
"[object Object]". -/
def jsStr : JsValue → String
  | .null => ""
  | .str s => s
  | .num n => toString n
  | .bool b => if b then "true" else "false"
  | .arr xs => jsStrArr xs
  | .obj _ => "[object Object]"
def jsStrArr : List JsValue → String
  | [] => ""
  | [v] => jsStr v
  | v :: rest => jsStr v ++ "," ++ jsStrArr rest
end

/-- `arr.join("|")`. -/
def joinBar : List JsValue → String
  | [] => ""
  | [v] => jsStr v
  | v :: rest => jsStr v ++ "|" ++ joinBar rest

/-- `out[k] = v` on a JS object: overwrite in place, else append. -/
def setKey : List (String × String) → String → String → List (String × String)
  | [], k, v => [(k, v)]
  | (k2, v2) :: rest, k, v =>
    if k2 = k then (k2, v) :: rest else (k2, v2) :: setKey rest k v

/-- The dotted-path key: `prefix ? prefix + "." + k : k`. -/
def dotKey (p k : String) : String := if p = "" then k else p ++ "." ++ k

mutual
/-- `flatten(obj, prefix, out)` (part_000 lines 1260-1283). -/
def flatten : JsValue → String → List (String × String) → List (String × String)
  | .null, p, out => if p = "" then out else setKey out p ""
  | .str s, p, out => setKey out p s
  | .num n, p, out => setKey out p (toString n)
  | .bool b, p, out => setKey out p (if b then "true" else "false")
  | .arr xs, p, out =>
    match xs with
    | [] => setKey out (if p = "" then "list" else p) (joinBar [])
    | v :: rest =>
      if typeofIsObject v then
        setKey out (if p = "" then "json" else p) (stringifyV (.arr (v :: rest)))
      else
        setKey out (if p = "" then "list" else p) (joinBar (v :: rest))
  | .obj fs, p, out => flattenFields fs p out
def flattenFields : List (String × JsValue) → String → List (String × String) → List (String × String)
  | [], _, out => out
  | (k, v) :: rest, p, out => flattenFields rest p (flatten v (dotKey p k) out)
end

/-- `/\r?\n/g` replaced by `"\n"`: a CR immediately followed by LF is
dropped; everything else is kept. -/
def normNewlines : List Char → List Char
  | [] => []
  | '\r' :: '\n' :: rest => '\n' :: normNewlines rest
  | c :: rest => c :: normNewlines rest

def doubleQuoteChar (c : Char) : String :=
  if c = '"' then "\"\"" else String.singleton c

/-- `csvEscape` (part_000 lines 1285-1297) on an already-stringified
value. -/
def csvEscape (s : String) : String :=
  let s1 := String.mk (normNewlines s.toList)
  let needsQuote := s1.toList.any (fun c => c = '"' || c = ',' || c = '\n')
  let s2 := if s1.toList.contains '"'
    then String.join (s1.toList.map doubleQuoteChar) else s1
  if needsQuote then "\"" ++ s2 ++ "\"" else s2

/-- JS `Set` insertion: add `k` at the end unless already present. -/
def insertNew (acc : List String) (k : String) : List String :=
  if acc.contains k then acc else acc ++ [k]

def rowKeys (r : List (String × String)) : List String := r.map Prod.fst

/-- The header set of one sheet: every flattened row's keys, added in
row order then key order, first occurrence kept (JS `Set` iteration
order). -/
def headersOf (flatRows : List (List (String × String))) : List String :=
  flatRows.foldl (fun acc r => (rowKeys r).foldl insertNew acc) []

/-- First-seen-order de-duplication of a key list. -/
def dedupFirstSeen (l : List String) : List String := l.foldl insertNew []

/-- `row[h] === undefined ? "" : row[h]`. -/
def lookupCell (r : List (String × String)) (h : String) : String :=
  match r.find? (fun kv => kv.1 == h) with
  | some kv => kv.2
  | none => ""

/-- One sheet's section of the multi-sheet CSV: marker line, header line
(`__sheet` first), then one line per row in arrival order. -/
def sheetSection (name : String) (rows : List JsValue) : String :=
  let flatRows := rows.map (fun r => flatten r "" [])
  "# sheet: " ++ name ++ "\n" ++
  String.intercalate "," (("__sheet" :: headersOf flatRows).map csvEscape) ++ "\n" ++
  String.join (flatRows.map (fun r =>
    String.intercalate ","
      ((name :: (headersOf flatRows).map (lookupCell r)).map csvEscape) ++ "\n"))

/-- `toMultiSheetCSVString` (part_000 lines 1299-1320): sheet sections
in declaration order, separated by a blank line. -/
def toMultiSheetCSVString : List (String × List JsValue) → String
  | [] => ""
  | [(name, rows)] => sheetSection name rows
  | (name, rows) :: rest => sheetSection name rows ++ "\n" ++ toMultiSheetCSVString rest

theorem insertNew_mem (acc : List String) (x k : String) :
    k ∈ insertNew acc x ↔ k ∈ acc ∨ k = x := by
  unfold insertNew
  split
  · rename_i h
    have hx : x ∈ acc := by
      rw [List.contains_eq_any_beq] at h
      rcases List.any_eq_true.mp h with ⟨y, hy, hxy⟩
      rw [eq_of_beq hxy]
      exact hy
    constructor
    · exact Or.inl
    · rintro (hk | rfl)
      · exact hk
      · exact hx
  · simp [List.mem_append]

theorem foldl_insertNew_mem :
    ∀ (l acc : List String) (k : String),
      k ∈ l.foldl insertNew acc ↔ k ∈ acc ∨ k ∈ l := by
  intro l
  induction l with
  | nil => intro acc k; simp
  | cons x xs ih =>
    intro acc k
    rw [List.foldl_cons, ih, insertNew_mem]
    constructor
    · rintro ((hk | rfl) | hk)
      · exact Or.inl hk
      · exact Or.inr (List.mem_cons_self _ _)
      · exact Or.inr (List.mem_cons_of_mem _ hk)
    · rintro (hk | hk)
      · exact Or.inl (Or.inl hk)
      · rcases List.mem_cons.mp hk with rfl | hk2
        · exact Or.inl (Or.inr rfl)
        · exact Or.inr hk2

theorem insertNew_nodup (acc : List String) (x : String) (h : acc.Nodup) :
    (insertNew acc x).Nodup := by
  unfold insertNew
  split
  · exact h
  · rename_i hc
    have hx : x ∉ acc := by
      intro hmem
      exact hc (List.elem_eq_true_of_mem hmem)
    simp [List.nodup_append, h, hx]

theorem foldl_insertNew_nodup :
    ∀ (l acc : List String), acc.Nodup → (l.foldl insertNew acc).Nodup := by
  intro l
  induction l with
  | nil => intro acc h; exact h
  | cons x xs ih =>
    intro acc h
    exact ih _ (insertNew_nodup acc x h)

theorem headersOf_eq_dedup :
    ∀ (flatRows : List (List (String × String))),
      headersOf flatRows = dedupFirstSeen (flatRows.flatMap rowKeys) := by
  have hgen : ∀ (rows : List (List (String × String))) (acc : List String),
      rows.foldl (fun acc r => (rowKeys r).foldl insertNew acc) acc =
        (rows.flatMap rowKeys).foldl insertNew acc := by
    intro rows
    induction rows with
    | nil => intro acc; rfl
    | cons r rest ih =>
      intro acc
      rw [List.foldl_cons, ih, List.flatMap_cons, List.foldl_append]
  intro flatRows
  exact hgen flatRows []

theorem lookupCell_not_mem (r : List (String × String)) (h : String)
    (hmem : h ∉ rowKeys r) : lookupCell r h = "" := by
  unfold lookupCell
  have hn : r.find? (fun kv => kv.1 == h) = none := by
    rw [List.find?_eq_none]
    intro kv hkv hbeq
    apply hmem
    have he : kv.1 = h := eq_of_beq hbeq
    rw [← he]
    exact List.mem_map_of_mem Prod.fst hkv
  rw [hn]

/-- C7: `flatten` maps a nested record to a flat mapping — object fields
become dotted-path keys, a non-empty array with object-typed head
serializes wholesale as one JSON text under the parent path, other
arrays join their elements with "|", and null renders as the empty
string; and for every built row-set, the column header set is exactly
the union of the flattened keys across its rows, without duplicates, in
first-seen insertion order (row order, then key order), a row missing a
key rendering an empty cell rather than an error. -/
theorem claim_C7_flatten_export :
    (∀ (k : String) (v : JsValue) (fs : List (String × JsValue)) (p : String)
        (out : List (String × String)),
      flatten (.obj ((k, v) :: fs)) p out =
        flattenFields fs p (flatten v (dotKey p k) out)) ∧
    flatten (.obj [("a", .obj [("b", .str "x")])]) "" [] = [("a.b", "x")] ∧
    (∀ (v : JsValue) (rest : List JsValue) (p : String)
        (out : List (String × String)),
      flatten (.arr (v :: rest)) p out =
        if typeofIsObject v then
          setKey out (if p = "" then "json" else p) (stringifyV (.arr (v :: rest)))
        else
          setKey out (if p = "" then "list" else p) (joinBar (v :: rest))) ∧
    (∀ (p : String) (out : List (String × String)),
      flatten .null p out = if p = "" then out else setKey out p "") ∧
    (∀ (flatRows : List (List (String × String))) (k : String),
      (k ∈ headersOf flatRows ↔ ∃ r ∈ flatRows, k ∈ rowKeys r) ∧
      (headersOf flatRows).Nodup ∧
      headersOf flatRows = dedupFirstSeen (flatRows.flatMap rowKeys)) ∧
    (∀ (r : List (String × String)) (h : String),
      h ∉ rowKeys r → lookupCell r h = "") ∧
    toMultiSheetCSVString [("s", [.obj [("a", .num 1)], .obj [("b", .str "x")]])] =
      "# sheet: s\n__sheet,a,b\ns,1,\ns,,x\n" := by
  refine ⟨fun _ _ _ _ _ => rfl, rfl, fun _ _ _ _ => rfl, fun _ _ => rfl,
    ?_, lookupCell_not_mem, rfl⟩
  intro flatRows k
  refine ⟨?_, ?_, headersOf_eq_dedup flatRows⟩
  · rw [headersOf_eq_dedup flatRows]
    unfold dedupFirstSeen
    rw [foldl_insertNew_mem]
    simp [List.mem_flatMap]
  · rw [headersOf_eq_dedup flatRows]
    exact foldl_insertNew_nodup _ [] List.nodup_nil

/-- Witness for C7: the cell of a column absent from a row is the empty
string. -/
theorem claim_C7_flatten_export_witness :
    lookupCell [("a", "1")] "b" = "" :=
  claim_C7_flatten_export.2.2.2.2.2.1 [("a", "1")] "b" (by decide)

/-- C10: `flatten` classifies an array solely by its first element — a
non-empty array whose first element is object-typed is serialized
wholesale as one JSON string under the parent path, even if later
elements are scalars, while an empty array renders as the empty string
(the delimiter-join of zero elements), never as JSON. -/
theorem claim_C10_array_classification :
    (∀ (v : JsValue) (rest : List JsValue) (p : String)
        (out : List (String × String)),
      flatten (.arr (v :: rest)) p out =
        if typeofIsObject v then
          setKey out (if p = "" then "json" else p) (stringifyV (.arr (v :: rest)))
        else
          setKey out (if p = "" then "list" else p) (joinBar (v :: rest))) ∧
    (∀ (p : String) (out : List (String × String)),
      flatten (.arr []) p out = setKey out (if p = "" then "list" else p) "") ∧
    flatten (.arr [.obj [("a", .num 1)], .num 2]) "k" [] =
      [("k", "[\x7b\"a\":1\x7d,2]")] ∧
    flatten (.arr []) "k" [] = [("k", "")] :=
  ⟨fun _ _ _ _ => rfl, fun _ _ => rfl, rfl, rfl⟩

/- ================================================================
   Pendle PT-address extraction (part_000: normalizeAddress, lines
   830-832; extractPtAddressFromPendleActive, lines 846-857).

     function normalizeAddress(addr) { return (addr || "").toLowerCase(); }
     function extractPtAddressFromPendleActive(ptField) {
       if (typeof ptField === "string") {
         const parts = ptField.split("-");
         return normalizeAddress(parts[parts.length - 1]);
       }
       if (ptField && typeof ptField === "object") {
         if (ptField.address) return normalizeAddress(ptField.address);
         if (ptField.token) return normalizeAddress(ptField.token);
         if (ptField.id) return normalizeAddress(ptField.id);
       }
       return "";
     }

   `.toLowerCase()` is a String method: when `addr` is truthy but not a
   string (a number, an array, an object), `(addr || "")` evaluates to
   `addr` itself and `.toLowerCase()` throws a TypeError — modelled as
   `none`.  Lowercasing is modelled on ASCII (`Char.toLower`), which
   agrees with JS on address strings.
   ================================================================ -/

/-- JS truthiness of a value: `false`, `0`, `""`, `null`/`undefined` are
falsy; every object and array (even empty ones) is truthy. -/
def jsTruthy : JsValue → Bool
  | .null => false
  | .str s => s != ""
  | .num n => n != 0
  | .bool b => b
  | .arr _ => true
  | .obj _ => true

/-- `.toLowerCase()` on the modelled strings. -/
def toLowerJs (s : String) : String := String.mk (s.toList.map Char.toLower)

/-- `normalizeAddress(addr)`: `none` models the TypeError thrown when a
truthy non-string reaches `.toLowerCase()`. -/
def normalizeAddress (v : JsValue) : Option String :=
  if jsTruthy v then
    match v with
    | .str s => some (toLowerJs s)
    | _ => none
  else some ""

/-- `ptField.k`: the field's value, or `undefined` (modelled `.null`). -/
def getField (fs : List (String × JsValue)) (k : String) : JsValue :=
  match fs.find? (fun kv => kv.1 == k) with
  | some kv => kv.2
  | none => .null

def lastSegAux : List Char → List Char → List Char
  | [], acc => acc.reverse
  | c :: rest, acc =>
    if c = '-' then lastSegAux rest [] else lastSegAux rest (c :: acc)

/-- `s.split("-")[parts.length - 1]`: the substring after the final
dash (the whole string when there is none, "" for a trailing dash). -/
def lastDashSegment (s : String) : String := String.mk (lastSegAux s.toList [])

/-- `extractPtAddressFromPendleActive` (part_000 lines 846-857). -/
def extractPtAddressFromPendleActive (v : JsValue) : Option String :=
  match v with
  | .str s => normalizeAddress (.str (lastDashSegment s))
  | _ =>
    if jsTruthy v && typeofIsObject v then
      match v with
      | .obj fs =>
        if jsTruthy (getField fs "address") then normalizeAddress (getField fs "address")
        else if jsTruthy (getField fs "token") then normalizeAddress (getField fs "token")
        else if jsTruthy (getField fs "id") then normalizeAddress (getField fs "id")
        else some ""
      | _ => some ""
    else some ""

theorem charToLower_idem (c : Char) :
    Char.toLower (Char.toLower c) = Char.toLower c := by
  unfold Char.toLower
  dsimp only
  by_cases h : c.toNat ≥ 65 ∧ c.toNat ≤ 90
  · rw [if_pos h]
    have ht : (Char.ofNat (c.toNat + 32)).toNat = c.toNat + 32 := by
      unfold Char.ofNat
      rw [dif_pos (Or.inl (by omega))]
      rfl
    rw [if_neg (by omega)]
  · rw [if_neg h, if_neg h]

theorem toLowerJs_idem (s : String) : toLowerJs (toLowerJs s) = toLowerJs s := by
  unfold toLowerJs
  have hmap : ∀ l : List Char,
      (l.map Char.toLower).map Char.toLower = l.map Char.toLower := by
    intro l
    induction l with
    | nil => rfl
    | cons c cs ih => simp [charToLower_idem c, ih]
  show String.mk ((String.mk (s.toList.map Char.toLower)).toList.map Char.toLower) = _
  rw [show (String.mk (s.toList.map Char.toLower)).toList = s.toList.map Char.toLower from rfl]
  rw [hmap]

theorem normalizeAddress_str (u : String) :
    normalizeAddress (.str u) = some (toLowerJs u) := by
  unfold normalizeAddress
  by_cases h : u = ""
  · subst h
    rfl
  · rw [if_pos (by simp [jsTruthy, h])]

/-- A field value the extractor can feed to `normalizeAddress` without a
TypeError: falsy, or a string. -/
def fieldOkay (v : JsValue) : Prop := jsTruthy v = false ∨ ∃ s, v = .str s

theorem normalizeAddress_okay (v : JsValue) (h : fieldOkay v) :
    ∃ r, normalizeAddress v = some r := by
  rcases h with h | ⟨s, rfl⟩
  · exact ⟨"", by simp [normalizeAddress, h]⟩
  · exact ⟨toLowerJs s, normalizeAddress_str s⟩

theorem normalizeAddress_lower (v : JsValue) (r : String)
    (h : normalizeAddress v = some r) : toLowerJs r = r := by
  cases v with
  | str s =>
    rw [normalizeAddress_str] at h
    injection h with h3
    rw [← h3]
    exact toLowerJs_idem _
  | null =>
    have h2 : some "" = some r := h
    injection h2 with h3
    rw [← h3]
    rfl
  | num n =>
    unfold normalizeAddress at h
    split at h
    · exact Option.noConfusion h
    · injection h with h3
      rw [← h3]
      rfl
  | bool b =>
    unfold normalizeAddress at h
    split at h
    · exact Option.noConfusion h
    · injection h with h3
      rw [← h3]
      rfl
  | arr xs => exact Option.noConfusion h
  | obj fs => exact Option.noConfusion h

/-- C9, counterexample to the claim as stated: an object whose `address`
field is the (truthy, non-string) number 1 makes `normalizeAddress` call
`.toLowerCase()` on a number, which throws a TypeError — the extractor
is not total. -/
theorem claim_C9_counterexample :
    extractPtAddressFromPendleActive (.obj [("address", .num 1)]) = none := rfl

/-- C9 (amended): the extractor handles the documented shapes without
throwing and always returns a lowercase string when it returns: a
composite "chainId-address" string maps to the lowercased final
dash-segment; an object whose candidate `address`/`token`/`id` fields
are each falsy-or-string yields a result; null, numbers, booleans and
arrays map to the empty string.  But it is not total: an object whose
first truthy candidate field is a non-string throws (see the
counterexample). -/
theorem claim_C9_extractor :
    (∀ s, extractPtAddressFromPendleActive (.str s) =
      some (toLowerJs (lastDashSegment s))) ∧
    (∀ v r, extractPtAddressFromPendleActive v = some r → toLowerJs r = r) ∧
    (∀ fs, fieldOkay (getField fs "address") → fieldOkay (getField fs "token") →
      fieldOkay (getField fs "id") →
      ∃ r, extractPtAddressFromPendleActive (.obj fs) = some r) ∧
    extractPtAddressFromPendleActive .null = some "" ∧
    (∀ n, extractPtAddressFromPendleActive (.num n) = some "") ∧
    (∀ b, extractPtAddressFromPendleActive (.bool b) = some "") ∧
    (∀ xs, extractPtAddressFromPendleActive (.arr xs) = some "") := by
  refine ⟨?_, ?_, ?_, rfl, ?_, ?_, fun xs => rfl⟩
  · intro s
    exact normalizeAddress_str (lastDashSegment s)
  · intro v r h
    cases v with
    | str s =>
      have h2 : normalizeAddress (.str (lastDashSegment s)) = some r := h
      exact normalizeAddress_lower _ _ h2
    | null =>
      have h2 : some "" = some r := h
      injection h2 with h3
      rw [← h3]
      rfl
    | num n =>
      have h2 : extractPtAddressFromPendleActive (.num n) = some "" := by
        simp [extractPtAddressFromPendleActive, typeofIsObject]
      rw [h2] at h
      injection h with h3
      rw [← h3]
      rfl
    | bool b =>
      have h2 : extractPtAddressFromPendleActive (.bool b) = some "" := by
        simp [extractPtAddressFromPendleActive, typeofIsObject]
      rw [h2] at h
      injection h with h3
      rw [← h3]
      rfl
    | arr xs =>
      have h2 : some "" = some r := h
      injection h2 with h3
      rw [← h3]
      rfl
    | obj fs =>
      have h2 : (if jsTruthy (getField fs "address") then
          normalizeAddress (getField fs "address")
        else if jsTruthy (getField fs "token") then
          normalizeAddress (getField fs "token")
        else if jsTruthy (getField fs "id") then
          normalizeAddress (getField fs "id")
        else some "") = some r := h
      by_cases ha : jsTruthy (getField fs "address") = true
      · rw [if_pos ha] at h2
        exact normalizeAddress_lower _ _ h2
      · rw [if_neg ha] at h2
        by_cases ht : jsTruthy (getField fs "token") = true
        · rw [if_pos ht] at h2
          exact normalizeAddress_lower _ _ h2
        · rw [if_neg ht] at h2
          by_cases hi : jsTruthy (getField fs "id") = true
          · rw [if_pos hi] at h2
            exact normalizeAddress_lower _ _ h2
          · rw [if_neg hi] at h2
            injection h2 with h3
            rw [← h3]
            rfl
  · intro fs ha ht hi
    have hgoal : ∃ r, (if jsTruthy (getField fs "address") then
        normalizeAddress (getField fs "address")
      else if jsTruthy (getField fs "token") then
        normalizeAddress (getField fs "token")
      else if jsTruthy (getField fs "id") then
        normalizeAddress (getField fs "id")
      else some "") = some r := by
      by_cases h1 : jsTruthy (getField fs "address") = true
      · rw [if_pos h1]
        exact normalizeAddress_okay _ ha
      · rw [if_neg h1]
        by_cases h2 : jsTruthy (getField fs "token") = true
        · rw [if_pos h2]
          exact normalizeAddress_okay _ ht
        · rw [if_neg h2]
          by_cases h3 : jsTruthy (getField fs "id") = true
          · rw [if_pos h3]
            exact normalizeAddress_okay _ hi
          · rw [if_neg h3]
            exact ⟨"", rfl⟩
    exact hgoal
  · intro n
    simp [extractPtAddressFromPendleActive, typeofIsObject]
  · intro b
    simp [extractPtAddressFromPendleActive, typeofIsObject]

/-- Witness for C9 (amended): the composite string "1-0xAB" extracts to
the lowercase "0xab", and the result is a fixed point of lowercasing. -/
theorem claim_C9_extractor_witness : toLowerJs "0xab" = "0xab" :=
  claim_C9_extractor.2.1 (.str "1-0xAB") "0xab" rfl

end MorphoDash
